import Mathlib

/-!
Verification of the meshtastic-bot Discord bot core: the multi-part modal
state machine (field chunking, session store, submission merging) and the
TTL caches used by the changelog features.

Go strings are modelled as lists of characters (`Str`), Go maps
(`map[string]string`, the session store, the keyed comparison cache) as
association lists with overwrite-on-insert semantics, and Go time values as
natural numbers (`time.Since t` becomes `now - t`).  Fallible upstream
calls (the GitHub client interface) are modelled as `Except` values or
functions passed as parameters, mirroring the `GithubClient` interface
variable in the handlers package.
-/

set_option maxRecDepth 16384

/-- Go strings, modelled as lists of characters. -/
abbrev Str := List Char

/-- Helper to write `Str` constants from Lean string literals. -/
def str (s : String) : Str := s.toList

/-- Embedding of Go `strings.Split(s, sep)` for a one-character separator:
splitting an empty string yields one empty segment, and the separator
itself is dropped from the segments. -/
def splitOnChar (sep : Char) : List Char → List (List Char)
  | [] => [[]]
  | c :: rest =>
    if c = sep then [] :: splitOnChar sep rest
    else
      match splitOnChar sep rest with
      | [] => [[c]]
      | g :: gs => (c :: g) :: gs

/-- Embedding of Go `strings.Join(groups, sep)` for a one-character
separator. -/
def joinWith (sep : Char) : List (List Char) → List Char
  | [] => []
  | [g] => g
  | g :: g₂ :: gs => g ++ sep :: joinWith sep (g₂ :: gs)

/-- Embedding of Go `strings.HasPrefix(s, pre)`. -/
def startsWithGo : List Char → List Char → Bool
  | _, [] => true
  | [], _ :: _ => false
  | c :: s, p :: ps => decide (c = p) && startsWithGo s ps

/-- Embedding of Go `strings.TrimPrefix(s, pre)`: drop the leading
occurrence of `pre` when present, otherwise return `s` unchanged. -/
def trimPrefixGo (pre s : Str) : Str :=
  if startsWithGo s pre then s.drop pre.length else s

/-- Embedding of Go `strings.Contains(s, sub)`: `sub` occurs contiguously
inside `s`. -/
def goContains : List Char → List Char → Bool
  | [], sub => sub.isEmpty
  | c :: rest, sub => startsWithGo (c :: rest) sub || goContains rest sub

/-- Embedding of Go `strings.ToLower`, applied character-wise. -/
def lowerStr (s : Str) : Str := s.map Char.toLower

/-- Embedding of `config.FieldConfig` (internal/config/modal.go): one modal
text-input field as configured for a channel. -/
structure FieldConfig where
  customID : Str
  label : Str
  style : Str
  placeholder : Str
  required : Bool
deriving DecidableEq

/-- Go `m[k] = v` on a `map[string]string`, with the map modelled as an
association list: overwrite the value when the key is present, otherwise
append a new entry. -/
def mapInsert (m : List (Str × Str)) (k v : Str) : List (Str × Str) :=
  if m.any (fun p => decide (p.1 = k)) then
    m.map (fun p => if p.1 = k then (p.1, v) else p)
  else m ++ [(k, v)]

/-- Go map lookup `m[k]` returning an `Option`. -/
def mapFind (m : List (Str × Str)) (k : Str) : Option Str :=
  (m.find? (fun p => decide (p.1 = k))).map (fun p => p.2)

/-- Go map lookup `m[k]` with the zero-value default (the empty string). -/
def mapFindD (m : List (Str × Str)) (k : Str) : Str :=
  (mapFind m k).getD []

/-- Embedding of `handlers.ModalState` (internal/discord/handlers/
interaction.go): the per-session record for a multi-part modal. -/
structure ModalState where
  title : Str
  allFields : List FieldConfig
  submittedValues : List (Str × Str)
  labels : List Str
  command : Str
  channelID : Str
  owner : Str
  repo : Str
deriving DecidableEq

/-- Session creation as done by `handleBug` / `handleFeature` when more
than five fields are configured: the collected-values map starts empty. -/
def newModalState (command channelID title : Str) (fields : List FieldConfig)
    (labels : List Str) (owner repo : Str) : ModalState :=
  ⟨title, fields, [], labels, command, channelID, owner, repo⟩

/-- Label resolution used by the merge loops in `handleModalSubmit` and
`handleModalContinuation` (discord/handlers/modal_handler.go): scan
`AllFields` for a field whose `CustomID` matches the submitted identifier
and use its `Label`; fall back to the raw identifier when no field
matches. -/
def resolveLabel (fields : List FieldConfig) (customID : Str) : Str :=
  match fields.find? (fun f => decide (f.customID = customID)) with
  | some f => f.label
  | none => customID

/-- The merge loop shared verbatim by `handleModalSubmit` (lines 40-56) and
`handleModalContinuation` (lines 190-210): each submitted
(identifier, value) pair is resolved to a display label and written into
`SubmittedValues`. -/
def mergeSubmission (state : ModalState) (submitted : List (Str × Str)) : ModalState :=
  { state with
    submittedValues :=
      submitted.foldl
        (fun m p => mapInsert m (resolveLabel state.allFields p.1) p.2)
        state.submittedValues }

/-- Completion test used by both merge handlers: the negation of the
`currentIndex < len(state.AllFields)` more-pages check. -/
def sessionComplete (state : ModalState) : Bool :=
  decide (state.allFields.length ≤ state.submittedValues.length)

/-- Embedding of `buildIssueBody` (internal/discord/handlers/
bug_handler.go related helper file).  The Go code iterates a map whose
order is unspecified; the model iterates the association list in insertion
order.  No claim depends on the iteration order. -/
def buildIssueBody (submittedValues : List (Str × Str)) (username userID : Str) : Str :=
  (submittedValues.foldl
    (fun acc p => acc ++ str "### " ++ p.1 ++ str "\n" ++ p.2 ++ str "\n\n") [])
    ++ str "\n---\nSubmitted via Discord by: " ++ username
    ++ str " (" ++ userID ++ str ")"

/-- Embedding of `truncatePlaceholder` (same helper file): placeholder text
longer than 100 characters is cut to its first 97 characters plus an
ellipsis. -/
def truncatePlaceholder (text : Str) : Str :=
  if 100 < text.length then text.take 97 ++ str "..." else text

/-- Embedding of `github.FormatIssueBody` (github/client.go), used by the
single-page legacy submission path. -/
def formatIssueBody (username userID description : Str) : Str :=
  str "**Reported by:** " ++ username ++ str " (ID: " ++ userID ++ str ")\n\n"
    ++ description
    ++ str "\n\n---\n*This issue was automatically created from Discord*"

/-- The chunk computation of `handleButtonClick` (modal_handler.go lines
300-305): `endIndex := min(currentIndex+5, len(fields))` and the slice
`fields[currentIndex:endIndex]`.  The Go slice would panic when
`currentIndex` exceeds `endIndex`; the model returns the empty list in that
unreachable case. -/
def nextChunk (fields : List FieldConfig) (currentIndex : Nat) : List FieldConfig :=
  let endIndex := min (currentIndex + 5) fields.length
  (fields.take endIndex).drop currentIndex

/-- The `totalParts := (len(state.AllFields) + 4) / 5` computation of the
progress message (modal_handler.go lines 62 and 216). -/
def totalParts (n : Nat) : Nat := (n + 4) / 5

/-- The `currentPart := (currentIndex + 4) / 5` computation of the progress
message (modal_handler.go lines 63 and 217). -/
def currentPart (c : Nat) : Nat := (c + 4) / 5

/-- The pages rendered over a full run of a multi-part session: page `i` is
shown once `5 * i` values have been collected, so it is the chunk the code
computes at `currentIndex = 5 * i`.  There are `totalParts` pages, matching
the count reported in the progress message. -/
def chunkPages (fields : List FieldConfig) : List (List FieldConfig) :=
  (List.range (totalParts fields.length)).map (fun i => nextChunk fields (5 * i))

/-- A rendered text input of a continuation modal (modal_handler.go lines
308-326): style collapses to a paragraph flag, and the placeholder is
truncated for display. -/
structure RenderedField where
  customID : Str
  label : Str
  paragraph : Bool
  placeholder : Str
  required : Bool
deriving DecidableEq

/-- Component construction of the continuation modal: one text input per
field of the chunk. -/
def renderField (f : FieldConfig) : RenderedField :=
  { customID := f.customID
    label := f.label
    paragraph := decide (f.style = str "paragraph")
    placeholder := truncatePlaceholder f.placeholder
    required := f.required }

/-- The process-wide `modalStates` map, modelled as an association list
from session key to `ModalState`. -/
abbrev ModalStore := List (Str × ModalState)

/-- Go map lookup `modalStates[stateKey]`. -/
def storeGet (store : ModalStore) (k : Str) : Option ModalState :=
  (store.find? (fun p => decide (p.1 = k))).map (fun p => p.2)

/-- Go map write `modalStates[stateKey] = state` (overwrite semantics). -/
def storeInsert (store : ModalStore) (k : Str) (st : ModalState) : ModalStore :=
  if store.any (fun p => decide (p.1 = k)) then
    store.map (fun p => if p.1 = k then (p.1, st) else p)
  else store ++ [(k, st)]

/-- Go `delete(modalStates, stateKey)`. -/
def storeDelete (store : ModalStore) (k : Str) : ModalStore :=
  store.filter (fun p => decide (p.1 ≠ k))

/-- Result of `GithubClient.CreateIssue` on success. -/
structure IssueResponse where
  number : Nat
  htmlURL : Str
deriving DecidableEq

/-- The `CreateIssue(owner, repo, title, body, labels)` capability of the
GitHub client interface; errors are opaque strings. -/
abbrev CreateIssueFn := Str → Str → Str → Str → List Str → Except Str IssueResponse

/-- The responses a modal handler can produce: an ephemeral message, a
message carrying a continue button, or a follow-up modal. -/
inductive HandlerResponse where
  | message (content : Str)
  | messageWithButton (content : Str) (buttonCustomID : Str)
  | modalResponse (customID : Str) (title : Str) (fields : List RenderedField)
deriving DecidableEq

/-- The expired-session message of modal_handler.go lines 181 and 292. -/
def sessionExpiredMessage : Str := str "❌ Session expired. Please start over."

/-- The issue-creation failure message of modal_handler.go lines 99, 157
and 254. -/
def failedIssueMessage : Str := str "❌ Failed to create issue. Please try again later."

/-- Decimal rendering of a number for the message builders. -/
def natStr (n : Nat) : Str := str (toString n)

/-- The progress message of modal_handler.go lines 64-65 and 218-219. -/
def partCompleteMessage (cur total : Nat) : Str :=
  str "Part " ++ natStr cur ++ str " of " ++ natStr total
    ++ str " complete. Click 'Continue' to proceed."

/-- The success message of `handleModalSubmit` (line 107). -/
def issueCreatedMessage (issue : IssueResponse) : Str :=
  str "✅ Issue #" ++ natStr issue.number ++ str " created successfully!\n" ++ issue.htmlURL

/-- The success message of `handleModalContinuation` (lines 262-267),
which appends a Markdown note. -/
def issueCreatedMessageWithNote (issue : IssueResponse) : Str :=
  issueCreatedMessage issue
    ++ str "\n\n**Note:** You can use Markdown formatting in your descriptions. To add images or other attachments, please edit the issue directly on GitHub."

/-- Embedding of `handleModalContinuation` (modal_handler.go lines
174-278).  Inputs are the session store, the decoded state key, the
submitted (identifier, value) pairs extracted from the modal components,
the submitting user, and the issue-creation capability with the global
owner/repo.  The result is the response sent, the store after the call
(Go mutates the pointed-to state in place, modelled by re-inserting the
merged state under the same key), and the number of `CreateIssue`
invocations performed. -/
def handleModalContinuation (owner repo : Str) (createIssue : CreateIssueFn)
    (store : ModalStore) (stateKey : Str) (submitted : List (Str × Str))
    (username userID : Str) : HandlerResponse × ModalStore × Nat :=
  match storeGet store stateKey with
  | none => (HandlerResponse.message sessionExpiredMessage, store, 0)
  | some state0 =>
    let state := mergeSubmission state0 submitted
    let store1 := storeInsert store stateKey state
    let currentIndex := state.submittedValues.length
    if currentIndex < state.allFields.length then
      (HandlerResponse.messageWithButton
        (partCompleteMessage (currentPart currentIndex) (totalParts state.allFields.length))
        (str "continue_" ++ stateKey), store1, 0)
    else
      match createIssue owner repo state.title
          (buildIssueBody state.submittedValues username userID) state.labels with
      | Except.error _ =>
        (HandlerResponse.message failedIssueMessage, storeDelete store1 stateKey, 1)
      | Except.ok issue =>
        (HandlerResponse.message (issueCreatedMessageWithNote issue),
          storeDelete store1 stateKey, 1)

/-- Embedding of the multi-part branch of `handleModalSubmit`
(modal_handler.go lines 37-119), entered when `modalStates[stateKey]`
exists.  It duplicates the continuation logic except for the shorter
success message. -/
def handleModalSubmitMultiPart (owner repo : Str) (createIssue : CreateIssueFn)
    (store : ModalStore) (stateKey : Str) (state0 : ModalState)
    (submitted : List (Str × Str)) (username userID : Str) :
    HandlerResponse × ModalStore × Nat :=
  let state := mergeSubmission state0 submitted
  let store1 := storeInsert store stateKey state
  let currentIndex := state.submittedValues.length
  if currentIndex < state.allFields.length then
    (HandlerResponse.messageWithButton
      (partCompleteMessage (currentPart currentIndex) (totalParts state.allFields.length))
      (str "continue_" ++ stateKey), store1, 0)
  else
    match createIssue owner repo state.title
        (buildIssueBody state.submittedValues username userID) state.labels with
    | Except.error _ =>
      (HandlerResponse.message failedIssueMessage, storeDelete store1 stateKey, 1)
    | Except.ok issue =>
      (HandlerResponse.message (issueCreatedMessage issue), storeDelete store1 stateKey, 1)

/-- Embedding of the single-page legacy branch of `handleModalSubmit`
(modal_handler.go lines 121-171): values are read directly from the
submitted fields without session bookkeeping. -/
def handleModalSubmitLegacy (owner repo : Str) (createIssue : CreateIssueFn)
    (command : Str) (submitted : List (Str × Str)) (username userID : Str) :
    HandlerResponse × Nat :=
  let fields := submitted.foldl (fun m p => mapInsert m p.1 p.2) []
  let labels := [str "from-discord"]
    ++ (if command = str "bug" then [str "bug"]
        else if command = str "feature" then [str "enhancement"] else [])
  let title0 := mapFindD fields (str "bug_title")
  let title := if title0 = [] then mapFindD fields (str "feature_title") else title0
  let description0 := mapFindD fields (str "bug_description")
  let description :=
    if description0 = [] then mapFindD fields (str "feature_description") else description0
  let body := formatIssueBody username userID description
  match createIssue owner repo title body labels with
  | Except.error _ => (HandlerResponse.message failedIssueMessage, 1)
  | Except.ok issue => (HandlerResponse.message (issueCreatedMessage issue), 1)

/-- The routing decision of `handleModalSubmit` (modal_handler.go lines
17-30): split the modal identifier on underscores, drop malformed
identifiers, recognise the continuation tag, otherwise read the command
name. -/
inductive ModalRoute where
  | invalid
  | continuation (stateKey : Str)
  | command (cmd : Str)
deriving DecidableEq

/-- Embedding of the `CustomID` decoding in `handleModalSubmit`:
`parts := strings.Split(customID, "_")`; fewer than two segments is
malformed; a literal second segment "continue" (with at least three
segments) routes to the continuation path with
`strings.Join(parts[2:], "_")` as the session key; otherwise the second
segment is the command. -/
def decodeModalCustomID (customID : Str) : ModalRoute :=
  let parts := splitOnChar '_' customID
  if parts.length < 2 then ModalRoute.invalid
  else if parts.getD 1 [] = str "continue" ∧ 3 ≤ parts.length then
    ModalRoute.continuation (joinWith '_' (parts.drop 2))
  else ModalRoute.command (parts.getD 1 [])

/-- Embedding of the whole `handleModalSubmit` (modal_handler.go lines
13-171): decode the identifier, then dispatch to the continuation path,
the multi-part path (when a session exists for
`{command}_{channelID}_{userID}`), or the legacy single-page path.  A
malformed identifier produces no response. -/
def handleModalSubmitModel (owner repo : Str) (createIssue : CreateIssueFn)
    (store : ModalStore) (customID channelID : Str)
    (submitted : List (Str × Str)) (username userID : Str) :
    Option HandlerResponse × ModalStore × Nat :=
  match decodeModalCustomID customID with
  | ModalRoute.invalid => (Option.none, store, 0)
  | ModalRoute.continuation stateKey =>
    let out := handleModalContinuation owner repo createIssue store stateKey
      submitted username userID
    (Option.some out.1, out.2.1, out.2.2)
  | ModalRoute.command command =>
    let stateKey := command ++ '_' :: channelID ++ '_' :: userID
    match storeGet store stateKey with
    | Option.some state0 =>
      let out := handleModalSubmitMultiPart owner repo createIssue store stateKey state0
        submitted username userID
      (Option.some out.1, out.2.1, out.2.2)
    | Option.none =>
      let out := handleModalSubmitLegacy owner repo createIssue command
        submitted username userID
      (Option.some out.1, store, out.2)

/-- Embedding of `handleButtonClick` (modal_handler.go lines 280-340):
only continue buttons are recognised; the session key is recovered by
stripping the prefix; an unknown key yields the expired-session message;
otherwise the next chunk of fields is rendered as a continuation modal.
The handler performs no upstream GitHub call (it takes no client), and
never modifies the store. -/
def handleButtonClick (store : ModalStore) (customID : Str) :
    Option HandlerResponse × ModalStore :=
  if startsWithGo customID (str "continue_") then
    let stateKey := trimPrefixGo (str "continue_") customID
    match storeGet store stateKey with
    | none => (some (HandlerResponse.message sessionExpiredMessage), store)
    | some state =>
      let currentIndex := state.submittedValues.length
      (some (HandlerResponse.modalResponse (str "modal_continue_" ++ stateKey) state.title
        ((nextChunk state.allFields currentIndex).map renderField)), store)
  else (Option.none, store)

/-- The release list cache state of internal/discord/handlers/
feature_handler.go: the cached releases (modelled by their tag names) and
the `lastCacheUpdate` timestamp.  Time values are naturals and
`time.Since(t)` becomes `now - t`. -/
structure ReleaseCacheSt where
  releaseCache : List Str
  lastCacheUpdate : Nat
deriving DecidableEq

/-- Embedding of `updateReleaseCache` (feature_handler.go lines 452-477)
as a sequential state transformer.  The mutex-protected read check and the
double check under the write lock both test
`time.Since(lastCacheUpdate) < cacheDuration && len(releaseCache) > 0`;
in a single-call model the two checks see the same state.  The upstream
`GetReleases` call is the `fetch` parameter; the third component counts
its invocations. -/
def updateReleaseCache (now ttl : Nat) (fetch : Except Str (List Str))
    (st : ReleaseCacheSt) : Except Str Unit × ReleaseCacheSt × Nat :=
  if now - st.lastCacheUpdate < ttl ∧ 0 < st.releaseCache.length then
    (Except.ok (), st, 0)
  else if now - st.lastCacheUpdate < ttl ∧ 0 < st.releaseCache.length then
    (Except.ok (), st, 0)
  else
    match fetch with
    | Except.error e => (Except.error e, st, 1)
    | Except.ok releases => (Except.ok (), ⟨releases, now⟩, 1)

/-- One entry of the keyed comparison cache (`CachedComparison`). -/
structure CachedComparison where
  message : Str
  timestamp : Nat
deriving DecidableEq

/-- The keyed `comparisonCache` map. -/
abbrev ComparisonCache := List (Str × CachedComparison)

/-- Go map lookup `comparisonCache[cacheKey]`. -/
def comparisonCacheGet (cache : ComparisonCache) (k : Str) : Option CachedComparison :=
  (cache.find? (fun p => decide (p.1 = k))).map (fun p => p.2)

/-- Go map write `comparisonCache[cacheKey] = entry`. -/
def comparisonCacheSet (cache : ComparisonCache) (k : Str) (v : CachedComparison) :
    ComparisonCache :=
  if cache.any (fun p => decide (p.1 = k)) then
    cache.map (fun p => if p.1 = k then (p.1, v) else p)
  else cache ++ [(k, v)]

/-- The commit author record nested inside a commit (go-github
`CommitAuthor`); `GetName` yields the empty string when absent. -/
structure CommitAuthor where
  name : Str
deriving DecidableEq

/-- One commit of a comparison (go-github `RepositoryCommit`):
`authorLogin` is `commit.GetAuthor().GetLogin()` with the empty string for
an absent author, and `commitAuthor` is the nested
`commit.GetCommit().GetAuthor()`, which the code checks against nil. -/
structure RepositoryCommit where
  sha : Str
  htmlURL : Str
  message : Str
  authorLogin : Str
  commitAuthor : Option CommitAuthor
deriving DecidableEq

/-- A commit comparison (go-github `CommitsComparison`). -/
structure Comparison where
  totalCommits : Nat
  htmlURL : Str
  commits : List RepositoryCommit
deriving DecidableEq

/-- First line of a commit message: `strings.Index(message, "\n")` and the
prefix before it, or the whole message when it has no newline. -/
def firstLineGo (s : Str) : Str := s.takeWhile (fun c => decide (c ≠ '\n'))

/-- The author display of one changelog line: the GitHub login, falling
back to the nested commit author name, and "Unknown" when that record is
absent. -/
def commitAuthorDisplay (commit : RepositoryCommit) : Str :=
  if commit.authorLogin = [] then
    match commit.commitAuthor with
    | some a => a.name
    | none => str "Unknown"
  else commit.authorLogin

/-- The short SHA of one changelog line: the first seven characters when
longer than seven. -/
def shortSha (sha : Str) : Str := if 7 < sha.length then sha.take 7 else sha

/-- One list line of the changelog message. -/
def commitLine (commit : RepositoryCommit) : Str :=
  str "- [`" ++ shortSha commit.sha ++ str "`](<" ++ commit.htmlURL ++ str ">) "
    ++ firstLineGo commit.message ++ str " - *" ++ commitAuthorDisplay commit ++ str "*\n"

/-- Embedding of `formatChangelogMessage` (feature_handler.go lines
367-410): header, total count, optional last-10 truncation note, one line
per shown commit, and the full-comparison link. -/
def formatChangelogMessage (base head : Str) (comparison : Comparison) : Str :=
  let header := str "## Changes from " ++ base ++ str " to " ++ head ++ str "\n"
    ++ str "Total commits: " ++ natStr comparison.totalCommits ++ str "\n\n"
  let truncNote :=
    if 10 < comparison.commits.length then
      str "*Showing last 10 of " ++ natStr comparison.commits.length ++ str " commits*\n\n"
    else []
  let shown :=
    if 10 < comparison.commits.length then
      comparison.commits.drop (comparison.commits.length - 10)
    else comparison.commits
  header ++ truncNote ++ (shown.foldl (fun acc c => acc ++ commitLine c) [])
    ++ str "\n[View Full Comparison](<" ++ comparison.htmlURL ++ str ">)"

/-- Embedding of `getChangelogMessage` (feature_handler.go lines 326-365)
as a sequential state transformer over the keyed comparison cache.  The
read-locked check and the double check under the write lock are both
present; the upstream `CompareCommits` call is the `compareFetch`
parameter and the third component counts its invocations. -/
def getChangelogMessage (now ttl : Nat) (compareFetch : Except Str Comparison)
    (cache : ComparisonCache) (base head : Str) :
    Except Str Str × ComparisonCache × Nat :=
  let cacheKey := base ++ str "..." ++ head
  let fetchPath : Except Str Str × ComparisonCache × Nat :=
    match comparisonCacheGet cache cacheKey with
    | some cached =>
      if now - cached.timestamp < ttl then (Except.ok cached.message, cache, 0)
      else
        match compareFetch with
        | Except.error e => (Except.error e, cache, 1)
        | Except.ok comparison =>
          let message := formatChangelogMessage base head comparison
          (Except.ok message, comparisonCacheSet cache cacheKey ⟨message, now⟩, 1)
    | none =>
      match compareFetch with
      | Except.error e => (Except.error e, cache, 1)
      | Except.ok comparison =>
        let message := formatChangelogMessage base head comparison
        (Except.ok message, comparisonCacheSet cache cacheKey ⟨message, now⟩, 1)
  match comparisonCacheGet cache cacheKey with
  | some cached =>
    if now - cached.timestamp < ttl then (Except.ok cached.message, cache, 0)
    else fetchPath
  | none => fetchPath

/-- The choice-building loop of `handleChangelogAutocomplete`
(feature_handler.go lines 430-442): append each tag that matches the
(already lowercased) input, and break once 25 choices are collected.  The
`currentInput == ""` test short-circuits the contains check exactly as the
Go `||` does. -/
def autocompleteLoop (currentInput : Str) : List Str → List Str → List Str
  | [], choices => choices
  | tagName :: rest, choices =>
    let choices :=
      if currentInput.isEmpty || goContains (lowerStr tagName) currentInput then
        choices ++ [tagName]
      else choices
    if 25 ≤ choices.length then choices else autocompleteLoop currentInput rest choices

/-- The focused-option extraction of `handleChangelogAutocomplete` (lines
421-428): the first focused option's value, lowercased; empty when no
option is focused.  Options are modelled as (focused, value) pairs. -/
def focusedInput (options : List (Bool × Str)) : Str :=
  match options.find? (fun o => o.1) with
  | some o => lowerStr o.2
  | none => []

/-- The choices produced by `handleChangelogAutocomplete` for a given
cached release list (tags in cache order) and interaction options. -/
def handleChangelogAutocompleteChoices (releaseCache : List Str)
    (options : List (Bool × Str)) : List Str :=
  autocompleteLoop (focusedInput options) releaseCache []

deriving instance DecidableEq for Except

/-- Program counter of one caller inside `updateReleaseCache` under the
reader/writer lock: about to run the read-locked freshness check, queued
for the write-locked critical section, or returned with a result.  A
returned caller records the release payload it observed (the cache content
at its return point, which the surrounding autocomplete handler then
reads) or the fetch error it propagated. -/
inductive CallerPC where
  | atRead
  | atWrite
  | done (result : Except Str (List Str))
deriving DecidableEq

/-- The freshness condition of both checks in `updateReleaseCache`. -/
def cacheFresh (now ttl : Nat) (cache : List Str) (last : Nat) : Bool :=
  decide (now - last < ttl) && decide (0 < cache.length)

/-- Global state of `K` concurrent `updateReleaseCache` callers: the
shared cache slot, the timestamp, the number of upstream `GetReleases`
invocations so far, and each caller's program counter. -/
structure ConcurrentRun where
  cache : List Str
  last : Nat
  fetchCount : Nat
  procs : List CallerPC
deriving DecidableEq

/-- One scheduler step: advance caller `idx` by one atomic phase.  The
read-locked check and the write-locked critical section (double check,
then fetch and store) are each atomic because the corresponding lock is
held throughout; interleavings of `updateReleaseCache` callers are exactly
the interleavings of these phases.  Time is frozen at `now` for the run
(the run is assumed short relative to the TTL). -/
def schedStep (now ttl : Nat) (fetch : Except Str (List Str))
    (s : ConcurrentRun) (idx : Nat) : ConcurrentRun :=
  match s.procs.get? idx with
  | none => s
  | some CallerPC.atRead =>
    if cacheFresh now ttl s.cache s.last then
      { s with procs := s.procs.set idx (CallerPC.done (Except.ok s.cache)) }
    else { s with procs := s.procs.set idx CallerPC.atWrite }
  | some CallerPC.atWrite =>
    if cacheFresh now ttl s.cache s.last then
      { s with procs := s.procs.set idx (CallerPC.done (Except.ok s.cache)) }
    else
      match fetch with
      | Except.error e =>
        { s with fetchCount := s.fetchCount + 1
                 procs := s.procs.set idx (CallerPC.done (Except.error e)) }
      | Except.ok p =>
        { cache := p, last := now, fetchCount := s.fetchCount + 1
          procs := s.procs.set idx (CallerPC.done (Except.ok p)) }
  | some (CallerPC.done _) => s

/-- Run a schedule (a list of caller indices) from a given state. -/
def runSchedule (now ttl : Nat) (fetch : Except Str (List Str))
    (sched : List Nat) (s : ConcurrentRun) : ConcurrentRun :=
  sched.foldl (schedStep now ttl fetch) s

/-- The cold start: empty cache, zero timestamp, no fetches yet, and `k`
callers all about to run their read-locked check. -/
def coldRun (k : Nat) : ConcurrentRun :=
  ⟨[], 0, 0, List.replicate k CallerPC.atRead⟩

/-- A caller that has returned. -/
def callerDone : CallerPC → Bool
  | CallerPC.done _ => true
  | _ => false

/-! Helper lemmas about the Go string operations. -/

theorem startsWithGo_append (pre s : List Char) : startsWithGo (pre ++ s) pre = true := by
  induction pre with
  | nil =>
    simp only [List.nil_append]
    cases s <;> rfl
  | cons c cs ih => simp [startsWithGo, ih]

theorem trimPrefixGo_append (pre s : List Char) : trimPrefixGo pre (pre ++ s) = s := by
  unfold trimPrefixGo
  simp [startsWithGo_append, List.drop_left]

theorem storeGet_storeDelete (store : ModalStore) (k : Str) :
    storeGet (storeDelete store k) k = none := by
  have hfind : (storeDelete store k).find? (fun p => decide (p.1 = k)) = none := by
    rw [List.find?_eq_none]
    intro p hp
    simp only [storeDelete, List.mem_filter, decide_eq_true_eq] at hp
    simp only [decide_eq_true_eq]
    exact hp.2
  simp [storeGet, hfind]

/-- C9: `truncateForDisplay` is idempotent, its output never exceeds 100
characters, input longer than 100 characters becomes its first 97
characters followed by an ellipsis, and shorter input is returned
unchanged. -/
theorem truncatePlaceholder_spec (s : Str) :
    truncatePlaceholder (truncatePlaceholder s) = truncatePlaceholder s ∧
    (truncatePlaceholder s).length ≤ 100 ∧
    (100 < s.length → truncatePlaceholder s = s.take 97 ++ str "...") ∧
    (s.length ≤ 100 → truncatePlaceholder s = s) := by
  have hdots : (str "...").length = 3 := by decide
  have hshort : ∀ t : Str, t.length ≤ 100 → truncatePlaceholder t = t := by
    intro t ht
    unfold truncatePlaceholder
    rw [if_neg (by omega)]
  have hb : (truncatePlaceholder s).length ≤ 100 := by
    unfold truncatePlaceholder
    by_cases h : 100 < s.length
    · rw [if_pos h]
      rw [List.length_append, List.length_take, hdots]
      omega
    · rw [if_neg h]; omega
  refine ⟨hshort _ hb, hb, ?_, hshort s⟩
  intro h
  unfold truncatePlaceholder
  rw [if_pos h]

/-- Witness for C9 at the spec's example: 150 copies of one character
truncate to the first 97 characters plus the ellipsis. -/
theorem truncatePlaceholder_spec_witness :
    100 < (List.replicate 150 'a').length ∧
    truncatePlaceholder (List.replicate 150 'a')
      = (List.replicate 150 'a').take 97 ++ str "..." :=
  ⟨by decide, (truncatePlaceholder_spec (List.replicate 150 'a')).2.2.1 (by decide)⟩

/-- C3: on a stale or empty entry, a failing upstream fetch makes
`updateReleaseCache` (single-slot release cache) and `getChangelogMessage`
(keyed comparison cache) return that error and leave the cache state
exactly as it was: no payload and no timestamp changes in any slot or
key. -/
theorem cache_fetch_error_leaves_state_unchanged (now ttl : Nat)
    (st : ReleaseCacheSt) (e : Str)
    (hstale : ¬ (now - st.lastCacheUpdate < ttl ∧ 0 < st.releaseCache.length))
    (cache : ComparisonCache) (base head : Str)
    (hstale2 : ∀ c, comparisonCacheGet cache (base ++ str "..." ++ head) = some c →
      ttl ≤ now - c.timestamp) :
    updateReleaseCache now ttl (Except.error e) st = (Except.error e, st, 1) ∧
    getChangelogMessage now ttl (Except.error e) cache base head
      = (Except.error e, cache, 1) := by
  constructor
  · unfold updateReleaseCache
    rw [if_neg hstale, if_neg hstale]
  · unfold getChangelogMessage
    cases hc : comparisonCacheGet cache (base ++ str "..." ++ head) with
    | none => simp only [hc]
    | some c =>
      have hstale3 := hstale2 c hc
      simp only [hc]
      rw [if_neg (by omega), if_neg (by omega)]

/-- Witness for C3: a cold release cache and an expired comparison entry,
with a failing fetch. -/
theorem cache_fetch_error_witness :
    updateReleaseCache 50 10 (Except.error (str "api down")) ⟨[], 0⟩
      = (Except.error (str "api down"), ⟨[], 0⟩, 1) ∧
    getChangelogMessage 50 10 (Except.error (str "api down"))
      [(str "v1...v2", ⟨str "old message", 0⟩)] (str "v1") (str "v2")
      = (Except.error (str "api down"), [(str "v1...v2", ⟨str "old message", 0⟩)], 1) :=
  cache_fetch_error_leaves_state_unchanged 50 10 ⟨[], 0⟩ (str "api down")
    (by decide) [(str "v1...v2", ⟨str "old message", 0⟩)] (str "v1") (str "v2")
    (by decide)

/-- C4: a fresh cache entry (payload present and `now - fetchedAt < ttl`)
is served with zero upstream fetches, for both the single-slot release
cache and the keyed comparison cache; an expired entry
(`now - fetchedAt >= ttl`) makes the next call perform exactly one
upstream fetch. -/
theorem cache_fresh_zero_fetch_expired_one_fetch (now ttl : Nat)
    (st : ReleaseCacheSt) (fetch : Except Str (List Str))
    (cache : ComparisonCache) (base head : Str)
    (compareFetch : Except Str Comparison) :
    (now - st.lastCacheUpdate < ttl → 0 < st.releaseCache.length →
      updateReleaseCache now ttl fetch st = (Except.ok (), st, 0)) ∧
    (ttl ≤ now - st.lastCacheUpdate →
      (updateReleaseCache now ttl fetch st).2.2 = 1) ∧
    (∀ c, comparisonCacheGet cache (base ++ str "..." ++ head) = some c →
      now - c.timestamp < ttl →
      getChangelogMessage now ttl compareFetch cache base head
        = (Except.ok c.message, cache, 0)) ∧
    (∀ c, comparisonCacheGet cache (base ++ str "..." ++ head) = some c →
      ttl ≤ now - c.timestamp →
      (getChangelogMessage now ttl compareFetch cache base head).2.2 = 1) := by
  refine ⟨?_, ?_, ?_, ?_⟩
  · intro h1 h2
    unfold updateReleaseCache
    rw [if_pos ⟨h1, h2⟩]
  · intro h1
    unfold updateReleaseCache
    rw [if_neg (by omega), if_neg (by omega)]
    cases fetch <;> rfl
  · intro c hc h1
    unfold getChangelogMessage
    simp only [hc]
    rw [if_pos h1]
  · intro c hc h1
    unfold getChangelogMessage
    simp only [hc]
    rw [if_neg (by omega), if_neg (by omega)]
    cases compareFetch <;> rfl

/-- Witness for C4: a fresh slot and entry at `now = 10`, `ttl = 100`; an
expired slot and entry via `fetchedAt = 0`, `now = 200`. -/
theorem cache_fresh_expired_witness :
    updateReleaseCache 10 100 (Except.ok [str "v9"]) ⟨[str "v1"], 5⟩
      = (Except.ok (), ⟨[str "v1"], 5⟩, 0) ∧
    (updateReleaseCache 200 100 (Except.ok [str "v9"]) ⟨[str "v1"], 0⟩).2.2 = 1 ∧
    getChangelogMessage 10 100 (Except.error (str "unused"))
      [(str "a...b", ⟨str "msg", 5⟩)] (str "a") (str "b")
      = (Except.ok (str "msg"), [(str "a...b", ⟨str "msg", 5⟩)], 0) ∧
    (getChangelogMessage 200 100 (Except.error (str "down"))
      [(str "a...b", ⟨str "msg", 0⟩)] (str "a") (str "b")).2.2 = 1 := by
  refine ⟨?_, ?_, ?_, ?_⟩
  · exact (cache_fresh_zero_fetch_expired_one_fetch 10 100 ⟨[str "v1"], 5⟩
      (Except.ok [str "v9"]) [] (str "a") (str "b") (Except.error (str "unused"))).1
      (by decide) (by decide)
  · exact (cache_fresh_zero_fetch_expired_one_fetch 200 100 ⟨[str "v1"], 0⟩
      (Except.ok [str "v9"]) [] (str "a") (str "b") (Except.error (str "unused"))).2.1
      (by decide)
  · exact (cache_fresh_zero_fetch_expired_one_fetch 10 100 ⟨[], 0⟩
      (Except.ok []) [(str "a...b", ⟨str "msg", 5⟩)] (str "a") (str "b")
      (Except.error (str "unused"))).2.2.1 ⟨str "msg", 5⟩ (by decide) (by decide)
  · exact (cache_fresh_zero_fetch_expired_one_fetch 200 100 ⟨[], 0⟩
      (Except.ok []) [(str "a...b", ⟨str "msg", 0⟩)] (str "a") (str "b")
      (Except.error (str "down"))).2.2.2 ⟨str "msg", 0⟩ (by decide) (by decide)

/-- C5: a continuation modal submission or a continue-button click whose
decoded session key is not in the store yields the session-expired
message, leaves the store unchanged, and performs no upstream
issue-tracker call (the continuation handler reports zero `CreateIssue`
invocations; the button handler takes no issue-tracker capability at
all). -/
theorem session_not_found_is_terminal (owner repo : Str)
    (createIssue : CreateIssueFn) (store : ModalStore) (key : Str)
    (submitted : List (Str × Str)) (username userID : Str)
    (hnone : storeGet store key = none) :
    handleModalContinuation owner repo createIssue store key submitted username userID
      = (HandlerResponse.message sessionExpiredMessage, store, 0) ∧
    handleButtonClick store (str "continue_" ++ key)
      = (some (HandlerResponse.message sessionExpiredMessage), store) := by
  constructor
  · unfold handleModalContinuation
    rw [hnone]
  · unfold handleButtonClick
    rw [if_pos (startsWithGo_append (str "continue_") key), trimPrefixGo_append]
    simp only [hnone]

/-- Witness for C5: an empty store and the key of a six-field bug
session. -/
theorem session_not_found_witness :
    handleModalContinuation (str "o") (str "r")
      (fun _ _ _ _ _ => Except.error (str "unused"))
      [] (str "bug_chan1_user1") [] (str "alice") (str "1")
      = (HandlerResponse.message sessionExpiredMessage, [], 0) ∧
    handleButtonClick [] (str "continue_" ++ str "bug_chan1_user1")
      = (some (HandlerResponse.message sessionExpiredMessage), []) :=
  session_not_found_is_terminal (str "o") (str "r")
    (fun _ _ _ _ _ => Except.error (str "unused"))
    [] (str "bug_chan1_user1") [] (str "alice") (str "1") (by decide)

/-- C6: for a session that is complete after merging, a failing
issue-creation call makes both multi-part submission handlers send the
failure message, delete the session (a subsequent lookup of its key
reports not-found), and call `CreateIssue` exactly once — no retry. -/
theorem issue_creation_failure_deletes_session (owner repo : Str)
    (createIssue : CreateIssueFn) (store : ModalStore) (key : Str)
    (st0 : ModalState) (submitted : List (Str × Str)) (username userID : Str)
    (e : Str)
    (hget : storeGet store key = some st0)
    (hcomplete : (mergeSubmission st0 submitted).allFields.length ≤
      (mergeSubmission st0 submitted).submittedValues.length)
    (herr : createIssue owner repo (mergeSubmission st0 submitted).title
      (buildIssueBody (mergeSubmission st0 submitted).submittedValues username userID)
      (mergeSubmission st0 submitted).labels = Except.error e) :
    handleModalContinuation owner repo createIssue store key submitted username userID
      = (HandlerResponse.message failedIssueMessage,
          storeDelete (storeInsert store key (mergeSubmission st0 submitted)) key, 1) ∧
    storeGet (handleModalContinuation owner repo createIssue store key
      submitted username userID).2.1 key = none ∧
    handleModalSubmitMultiPart owner repo createIssue store key st0 submitted username userID
      = (HandlerResponse.message failedIssueMessage,
          storeDelete (storeInsert store key (mergeSubmission st0 submitted)) key, 1) ∧
    storeGet (handleModalSubmitMultiPart owner repo createIssue store key st0
      submitted username userID).2.1 key = none := by
  have hcont : handleModalContinuation owner repo createIssue store key submitted username userID
      = (HandlerResponse.message failedIssueMessage,
          storeDelete (storeInsert store key (mergeSubmission st0 submitted)) key, 1) := by
    unfold handleModalContinuation
    rw [hget]
    simp only []
    rw [if_neg (by omega), herr]
  have hmulti : handleModalSubmitMultiPart owner repo createIssue store key st0
      submitted username userID
      = (HandlerResponse.message failedIssueMessage,
          storeDelete (storeInsert store key (mergeSubmission st0 submitted)) key, 1) := by
    unfold handleModalSubmitMultiPart
    rw [if_neg (by omega), herr]
  refine ⟨hcont, ?_, hmulti, ?_⟩
  · rw [hcont]
    exact storeGet_storeDelete _ key
  · rw [hmulti]
    exact storeGet_storeDelete _ key

/-- A concrete six-field configuration (more than five fields, so the
multi-part path is used). -/
def exFields : List FieldConfig :=
  [⟨str "f1", str "L1", str "short", str "p1", true⟩,
   ⟨str "f2", str "L2", str "short", str "p2", true⟩,
   ⟨str "f3", str "L3", str "paragraph", str "p3", true⟩,
   ⟨str "f4", str "L4", str "short", str "p4", false⟩,
   ⟨str "f5", str "L5", str "short", str "p5", true⟩,
   ⟨str "f6", str "L6", str "paragraph", str "p6", true⟩]

/-- A fresh six-field bug session. -/
def exState : ModalState :=
  newModalState (str "bug") (str "chan") (str "Bug Report") exFields
    [str "from-discord", str "bug"] (str "o") (str "r")

/-- A submission covering all six configured identifiers. -/
def exSubmittedAll : List (Str × Str) :=
  [(str "f1", str "v1"), (str "f2", str "v2"), (str "f3", str "v3"),
   (str "f4", str "v4"), (str "f5", str "v5"), (str "f6", str "v6")]

/-- An issue tracker that always fails. -/
def exFailingIssueTracker : CreateIssueFn := fun _ _ _ _ _ => Except.error (str "boom")

/-- Witness for C6: a stored six-field session, a submission completing
it, and a failing issue tracker; the session is gone afterwards and
exactly one creation call was made. -/
theorem issue_creation_failure_witness :
    handleModalContinuation (str "o") (str "r") exFailingIssueTracker
      [(str "bug_chan_7", exState)] (str "bug_chan_7") exSubmittedAll
      (str "alice") (str "7")
      = (HandlerResponse.message failedIssueMessage,
          storeDelete (storeInsert [(str "bug_chan_7", exState)] (str "bug_chan_7")
            (mergeSubmission exState exSubmittedAll)) (str "bug_chan_7"), 1) ∧
    storeGet (handleModalContinuation (str "o") (str "r") exFailingIssueTracker
      [(str "bug_chan_7", exState)] (str "bug_chan_7") exSubmittedAll
      (str "alice") (str "7")).2.1 (str "bug_chan_7") = none := by
  have h := issue_creation_failure_deletes_session (str "o") (str "r")
    exFailingIssueTracker [(str "bug_chan_7", exState)] (str "bug_chan_7")
    exState exSubmittedAll (str "alice") (str "7") (str "boom")
    (by decide) (by decide) rfl
  exact ⟨h.1, h.2.1⟩

/-! Helper lemmas for the chunking claim. -/

theorem nextChunk_eq_drop_take (fields : List FieldConfig) (c : Nat) :
    nextChunk fields c = (fields.drop c).take 5 := by
  unfold nextChunk
  rw [List.drop_take, List.take_eq_take]
  simp only [List.length_drop]
  omega

theorem chunkPages_peel (l : List FieldConfig) (h : l ≠ []) :
    chunkPages l = l.take 5 :: chunkPages (l.drop 5) := by
  have h0 : 0 < l.length := List.length_pos.mpr h
  unfold chunkPages
  rw [show totalParts l.length = totalParts (l.drop 5).length + 1 by
    simp only [List.length_drop]; unfold totalParts; omega]
  rw [List.range_succ_eq_map, List.map_cons, List.map_map]
  congr 1
  · rw [nextChunk_eq_drop_take]
    simp
  · apply List.map_eq_map_iff.mpr
    intro i _
    simp only [Function.comp_apply]
    rw [nextChunk_eq_drop_take, nextChunk_eq_drop_take, List.drop_drop]
    congr 2
    omega

theorem chunkPages_sum_aux : ∀ (n : Nat) (l : List FieldConfig), l.length ≤ n →
    ((chunkPages l).map List.length).sum = l.length := by
  intro n
  induction n with
  | zero =>
    intro l hl
    have hnil : l = [] := List.eq_nil_of_length_eq_zero (by omega)
    subst hnil
    rfl
  | succ n ih =>
    intro l hl
    by_cases h : l = []
    · subst h; rfl
    · have h0 : 0 < l.length := List.length_pos.mpr h
      rw [chunkPages_peel l h, List.map_cons, List.sum_cons,
        ih (l.drop 5) (by simp only [List.length_drop]; omega)]
      rw [List.length_take, List.length_drop]
      omega

/-- C2: the next page is `orderedFields[c : min(c+5, N)]`, which equals the
first five of the fields still uncollected; every page has at most five
fields; the pages of a full run (page `i` rendered at collected count
`5 * i`) sum to `N` and number `totalParts N`; and the progress counters
`(N + 4) / 5` and `(c + 4) / 5` are the ceilings `ceil(N/5)` and
`ceil(c/5)`. -/
theorem chunking_correctness (fields : List FieldConfig) (c : Nat) :
    nextChunk fields c = (fields.drop c).take 5 ∧
    (nextChunk fields c).length ≤ 5 ∧
    ((chunkPages fields).map List.length).sum = fields.length ∧
    (∀ p ∈ chunkPages fields, p.length ≤ 5) ∧
    (chunkPages fields).length = totalParts fields.length ∧
    totalParts fields.length
      = fields.length / 5 + (if fields.length % 5 = 0 then 0 else 1) ∧
    currentPart c = c / 5 + (if c % 5 = 0 then 0 else 1) := by
  refine ⟨nextChunk_eq_drop_take fields c, ?_, ?_, ?_, ?_, ?_, ?_⟩
  · rw [nextChunk_eq_drop_take, List.length_take]
    omega
  · exact chunkPages_sum_aux fields.length fields (le_refl _)
  · intro p hp
    obtain ⟨i, _, hi⟩ := List.mem_map.mp hp
    rw [← hi, nextChunk_eq_drop_take, List.length_take]
    omega
  · simp [chunkPages]
  · unfold totalParts
    by_cases h : fields.length % 5 = 0 <;> simp [h] <;> omega
  · unfold currentPart
    by_cases h : c % 5 = 0 <;> simp [h] <;> omega

/-- Witness for C2 at the spec's example: twelve fields chunk into pages
of sizes 5, 5, 2 with three total parts; at collected count 7 the next
page is fields 8 and 9. -/
theorem chunking_correctness_witness :
    ((chunkPages (exFields ++ exFields)).map List.length).sum = 12 ∧
    (chunkPages (exFields ++ exFields)).map List.length = [5, 5, 2] ∧
    totalParts 12 = 3 ∧
    currentPart 7 = 2 ∧
    nextChunk (exFields ++ exFields) 7 = ((exFields ++ exFields).drop 7).take 5 :=
  ⟨by
    have h := (chunking_correctness (exFields ++ exFields) 7).2.2.1
    simpa using h,
   by decide, by decide, by decide,
   (chunking_correctness (exFields ++ exFields) 7).1⟩

/-! Helper lemmas for the identifier round-trip claim. -/

theorem splitOnChar_ne_nil (sep : Char) (l : List Char) : splitOnChar sep l ≠ [] := by
  cases l with
  | nil => simp [splitOnChar]
  | cons c rest =>
    unfold splitOnChar
    by_cases h : c = sep
    · simp [h]
    · rw [if_neg h]
      cases hs : splitOnChar sep rest <;> simp

theorem joinWith_splitOnChar (sep : Char) (l : List Char) :
    joinWith sep (splitOnChar sep l) = l := by
  induction l with
  | nil => rfl
  | cons c rest ih =>
    unfold splitOnChar
    by_cases h : c = sep
    · rw [if_pos h]
      cases hs : splitOnChar sep rest with
      | nil => exact absurd hs (splitOnChar_ne_nil sep rest)
      | cons g gs =>
        rw [hs] at ih
        simp only [joinWith, List.nil_append]
        rw [ih, h]
    · rw [if_neg h]
      cases hs : splitOnChar sep rest with
      | nil => exact absurd hs (splitOnChar_ne_nil sep rest)
      | cons g gs =>
        rw [hs] at ih
        cases gs with
        | nil =>
          simp only [joinWith] at ih ⊢
          rw [ih]
        | cons g2 gs2 =>
          simp only [joinWith] at ih ⊢
          rw [List.cons_append, ih]

theorem splitOnChar_append_sep (sep : Char) (x y : List Char) (hx : sep ∉ x) :
    splitOnChar sep (x ++ sep :: y) = x :: splitOnChar sep y := by
  induction x with
  | nil =>
    simp [splitOnChar]
  | cons a as ih =>
    have ha : a ≠ sep := fun h => hx (h ▸ List.mem_cons_self a as)
    have has : sep ∉ as := fun h => hx (List.mem_cons_of_mem a h)
    rw [List.cons_append]
    simp only [splitOnChar]
    rw [if_neg ha, ih has]

/-- C8: decoding is a round-trip for session keys
`{command}_{channelID}_{userID}`: splitting the continuation modal
identifier on underscores and rejoining the segments from index 2 yields
exactly the session key, and stripping the `continue_` prefix from the
button identifier yields exactly the session key. -/
theorem session_key_roundtrip (cmd ch uid : Str) :
    decodeModalCustomID (str "modal_continue_" ++ (cmd ++ '_' :: ch ++ '_' :: uid))
      = ModalRoute.continuation (cmd ++ '_' :: ch ++ '_' :: uid) ∧
    trimPrefixGo (str "continue_") (str "continue_" ++ (cmd ++ '_' :: ch ++ '_' :: uid))
      = cmd ++ '_' :: ch ++ '_' :: uid := by
  refine ⟨?_, trimPrefixGo_append _ _⟩
  set key : Str := cmd ++ '_' :: ch ++ '_' :: uid with hkey
  have hform : str "modal_continue_" ++ key
      = str "modal" ++ '_' :: (str "continue" ++ '_' :: key) := rfl
  have hsplit : splitOnChar '_' (str "modal_continue_" ++ key)
      = str "modal" :: str "continue" :: splitOnChar '_' key := by
    rw [hform, splitOnChar_append_sep '_' (str "modal") _ (by decide),
      splitOnChar_append_sep '_' (str "continue") _ (by decide)]
  have hne : splitOnChar '_' key ≠ [] := splitOnChar_ne_nil '_' key
  have hlen : 1 ≤ (splitOnChar '_' key).length := List.length_pos.mpr hne
  unfold decodeModalCustomID
  rw [hsplit]
  simp only [List.length_cons]
  rw [if_neg (by omega), if_pos ⟨rfl, by omega⟩]
  rw [show (str "modal" :: str "continue" :: splitOnChar '_' key).drop 2
      = splitOnChar '_' key from rfl]
  rw [joinWith_splitOnChar]

/-! Helper lemma for the autocomplete claim. -/

theorem autocompleteLoop_eq (input : Str) (l : List Str) :
    ∀ acc : List Str, acc.length < 25 →
    autocompleteLoop input l acc
      = acc ++ (l.filter
          (fun t => input.isEmpty || goContains (lowerStr t) input)).take (25 - acc.length) := by
  induction l with
  | nil =>
    intro acc h
    simp [autocompleteLoop]
  | cons t rest ih =>
    intro acc h
    by_cases hc : (input.isEmpty || goContains (lowerStr t) input) = true
    · rw [show autocompleteLoop input (t :: rest) acc
          = (if 25 ≤ (if (input.isEmpty || goContains (lowerStr t) input) then acc ++ [t]
              else acc).length then
              (if (input.isEmpty || goContains (lowerStr t) input) then acc ++ [t] else acc)
            else autocompleteLoop input rest
              (if (input.isEmpty || goContains (lowerStr t) input) then acc ++ [t] else acc))
          from rfl]
      rw [if_pos hc,
        List.filter_cons_of_pos (p := fun s => input.isEmpty || goContains (lowerStr s) input) hc]
      by_cases hb : 25 ≤ (acc ++ [t]).length
      · have hacc : acc.length = 24 := by
          simp only [List.length_append, List.length_cons, List.length_nil] at hb
          omega
        rw [if_pos hb]
        rw [show 25 - acc.length = 1 by omega]
        simp [List.take]
      · rw [if_neg hb]
        have hlt : (acc ++ [t]).length < 25 := by omega
        rw [ih (acc ++ [t]) hlt]
        simp only [List.length_append, List.length_cons, List.length_nil]
        rw [show 25 - acc.length = (25 - (acc.length + 1)) + 1 by omega]
        simp [List.take_succ_cons, List.append_assoc]
    · have hcf : (input.isEmpty || goContains (lowerStr t) input) = false := by
        simpa using hc
      rw [show autocompleteLoop input (t :: rest) acc
          = (if 25 ≤ (if (input.isEmpty || goContains (lowerStr t) input) then acc ++ [t]
              else acc).length then
              (if (input.isEmpty || goContains (lowerStr t) input) then acc ++ [t] else acc)
            else autocompleteLoop input rest
              (if (input.isEmpty || goContains (lowerStr t) input) then acc ++ [t] else acc))
          from rfl]
      rw [hcf]
      simp only [if_false, Bool.false_eq_true]
      rw [if_neg (by omega), ih acc h,
        List.filter_cons_of_neg (p := fun s => input.isEmpty || goContains (lowerStr s) input)
          (by simp [hcf])]

/-- C10: the autocomplete handler returns the first (in cache order) at
most 25 release tags that contain the focused input as a case-insensitive
substring, and all tags (up to the 25-choice cap) when the focused input
is empty. -/
theorem autocomplete_choices_spec (releaseCache : List Str)
    (options : List (Bool × Str)) :
    handleChangelogAutocompleteChoices releaseCache options
      = (releaseCache.filter (fun tag => (focusedInput options).isEmpty
          || goContains (lowerStr tag) (focusedInput options))).take 25 ∧
    (handleChangelogAutocompleteChoices releaseCache options).length ≤ 25 ∧
    (focusedInput options = [] →
      handleChangelogAutocompleteChoices releaseCache options = releaseCache.take 25) := by
  have hmain : handleChangelogAutocompleteChoices releaseCache options
      = (releaseCache.filter (fun tag => (focusedInput options).isEmpty
          || goContains (lowerStr tag) (focusedInput options))).take 25 := by
    unfold handleChangelogAutocompleteChoices
    rw [autocompleteLoop_eq (focusedInput options) releaseCache [] (by simp)]
    simp
  refine ⟨hmain, ?_, ?_⟩
  · rw [hmain]
    simp only [List.length_take]
    omega
  · intro hemp
    rw [hmain, hemp]
    simp

/-- Witness for C10: with no focused option the input is empty and the
whole (short) cache is offered. -/
theorem autocomplete_choices_witness :
    focusedInput ([] : List (Bool × Str)) = [] ∧
    handleChangelogAutocompleteChoices [str "v1.0.0", str "v2.0.0"] []
      = [str "v1.0.0", str "v2.0.0"].take 25 :=
  ⟨rfl, (autocomplete_choices_spec [str "v1.0.0", str "v2.0.0"] []).2.2 rfl⟩

/-! Helper lemmas for the collected-values invariant claim. -/

theorem mapKeys_mapInsert (m : List (Str × Str)) (k v : Str) :
    (mapInsert m k v).map Prod.fst
      = if k ∈ m.map Prod.fst then m.map Prod.fst else m.map Prod.fst ++ [k] := by
  have hany : (m.any (fun p => decide (p.1 = k)) = true) ↔ k ∈ m.map Prod.fst := by
    rw [List.any_eq_true]
    constructor
    · rintro ⟨p, hp, he⟩
      simp only [decide_eq_true_eq] at he
      exact List.mem_map.mpr ⟨p, hp, he⟩
    · intro h
      obtain ⟨p, hp, he⟩ := List.mem_map.mp h
      exact ⟨p, hp, by simp [he]⟩
  unfold mapInsert
  by_cases h : m.any (fun p => decide (p.1 = k)) = true
  · rw [if_pos h, if_pos (hany.mp h), List.map_map]
    have hfst : (Prod.fst ∘ fun p : Str × Str => if p.1 = k then (p.1, v) else p)
        = Prod.fst := by
      funext p
      simp [Function.comp, apply_ite Prod.fst]
    rw [hfst]
  · rw [if_neg h, if_neg (fun hk => h (hany.mpr hk)), List.map_append]
    rfl

theorem resolveLabel_mem (fields : List FieldConfig) (id : Str)
    (h : ∃ f ∈ fields, f.customID = id) :
    resolveLabel fields id ∈ fields.map FieldConfig.label := by
  obtain ⟨f, hf, hfid⟩ := h
  unfold resolveLabel
  cases hfind : fields.find? (fun g => decide (g.customID = id)) with
  | some g => exact List.mem_map.mpr ⟨g, List.mem_of_find?_eq_some hfind, rfl⟩
  | none =>
    exfalso
    have := List.find?_eq_none.mp hfind f hf
    simp [hfid] at this

theorem foldl_mapInsert_invariant (fields : List FieldConfig) :
    ∀ (batch : List (Str × Str)) (m : List (Str × Str)),
    (∀ p ∈ batch, ∃ f ∈ fields, f.customID = p.1) →
    (m.map Prod.fst).Nodup →
    (∀ x ∈ m.map Prod.fst, x ∈ fields.map FieldConfig.label) →
    ((batch.foldl (fun acc p => mapInsert acc (resolveLabel fields p.1) p.2) m).map
        Prod.fst).Nodup ∧
    (∀ x ∈ (batch.foldl (fun acc p => mapInsert acc (resolveLabel fields p.1) p.2) m).map
        Prod.fst, x ∈ fields.map FieldConfig.label) := by
  intro batch
  induction batch with
  | nil => exact fun m _ h1 h2 => ⟨h1, h2⟩
  | cons p rest ih =>
    intro m hgood h1 h2
    simp only [List.foldl_cons]
    have hmem : resolveLabel fields p.1 ∈ fields.map FieldConfig.label :=
      resolveLabel_mem fields p.1 (hgood p (List.mem_cons_self p rest))
    apply ih
    · exact fun q hq => hgood q (List.mem_cons_of_mem p hq)
    · rw [mapKeys_mapInsert]
      by_cases hk : resolveLabel fields p.1 ∈ m.map Prod.fst
      · rw [if_pos hk]; exact h1
      · rw [if_neg hk]
        simp [List.nodup_append, h1, hk]
    · intro x hx
      rw [mapKeys_mapInsert] at hx
      by_cases hk : resolveLabel fields p.1 ∈ m.map Prod.fst
      · rw [if_pos hk] at hx
        exact h2 x hx
      · rw [if_neg hk] at hx
        rcases List.mem_append.mp hx with hx | hx
        · exact h2 x hx
        · have : x = resolveLabel fields p.1 := by simpa using hx
          rw [this]
          exact hmem

theorem merge_batches_invariant (fields : List FieldConfig) :
    ∀ (batches : List (List (Str × Str))) (s : ModalState),
    s.allFields = fields →
    (∀ b ∈ batches, ∀ p ∈ b, ∃ f ∈ fields, f.customID = p.1) →
    (s.submittedValues.map Prod.fst).Nodup →
    (∀ x ∈ s.submittedValues.map Prod.fst, x ∈ fields.map FieldConfig.label) →
    (batches.foldl mergeSubmission s).allFields = fields ∧
    ((batches.foldl mergeSubmission s).submittedValues.map Prod.fst).Nodup ∧
    (∀ x ∈ (batches.foldl mergeSubmission s).submittedValues.map Prod.fst,
      x ∈ fields.map FieldConfig.label) := by
  intro batches
  induction batches with
  | nil => exact fun s hf _ h1 h2 => ⟨hf, h1, h2⟩
  | cons b rest ih =>
    intro s hf hgood h1 h2
    simp only [List.foldl_cons]
    have hb := foldl_mapInsert_invariant fields b s.submittedValues
      (by rw [← hf] at *; exact hgood b (List.mem_cons_self b rest))
      h1 h2
    apply ih
    · simpa [mergeSubmission] using hf
    · exact fun q hq => hgood q (List.mem_cons_of_mem b hq)
    · simpa [mergeSubmission, hf] using hb.1
    · simpa [mergeSubmission, hf] using hb.2

/-- A submission of seven identifiers matching no configured field of the
six-field session; the merge loops then fall back to the raw identifiers
as labels and store seven entries. -/
def exSubmittedUnmatched : List (Str × Str) :=
  [(str "x1", str "v"), (str "x2", str "v"), (str "x3", str "v"),
   (str "x4", str "v"), (str "x5", str "v"), (str "x6", str "v"),
   (str "x7", str "v")]

/-- Counterexample for C1 as stated: one merge whose submitted identifiers
match no field leaves the six-field session with seven collected values,
so `len(collectedValues) <= len(orderedFields)` fails for an arbitrary
merge sequence. -/
theorem modal_invariant_counterexample :
    ¬ ((mergeSubmission exState exSubmittedUnmatched).submittedValues.length
        ≤ (mergeSubmission exState exSubmittedUnmatched).allFields.length) := by
  decide

/-- C1 (amended): for a freshly created session and any sequence of merges
in which every submitted identifier matches some configured field — which
is all the legitimate UI can produce — the invariant
`len(collectedValues) <= len(orderedFields)` holds, and the session is
complete exactly when the two lengths are equal. -/
theorem modal_invariant_amended (command channelID title : Str)
    (fields : List FieldConfig) (labels : List Str) (owner repo : Str)
    (batches : List (List (Str × Str)))
    (hgood : ∀ b ∈ batches, ∀ p ∈ b, ∃ f ∈ fields, f.customID = p.1) :
    (batches.foldl mergeSubmission
        (newModalState command channelID title fields labels owner repo)).submittedValues.length
      ≤ (batches.foldl mergeSubmission
        (newModalState command channelID title fields labels owner repo)).allFields.length ∧
    (sessionComplete (batches.foldl mergeSubmission
        (newModalState command channelID title fields labels owner repo)) = true ↔
      (batches.foldl mergeSubmission
        (newModalState command channelID title fields labels owner repo)).submittedValues.length
      = (batches.foldl mergeSubmission
        (newModalState command channelID title fields labels owner repo)).allFields.length) := by
  have hinv := merge_batches_invariant fields batches
    (newModalState command channelID title fields labels owner repo)
    rfl hgood (by simp [newModalState]) (by simp [newModalState])
  have hlen : (batches.foldl mergeSubmission
      (newModalState command channelID title fields labels owner repo)).submittedValues.length
      ≤ fields.length := by
    have hsub := List.subperm_of_subset hinv.2.1 (fun x hx => hinv.2.2 x hx)
    have := hsub.length_le
    simpa using this
  rw [hinv.1]
  refine ⟨hlen, ?_⟩
  unfold sessionComplete
  rw [hinv.1]
  simp only [decide_eq_true_eq]
  omega

/-- Witness for C1 (amended): the six-field session, merged in a batch of
five followed by a batch of one, all identifiers drawn from the configured
fields; the session ends complete with both lengths equal to six. -/
theorem modal_invariant_witness :
    ([exSubmittedAll.take 5, exSubmittedAll.drop 5].foldl mergeSubmission
        exState).submittedValues.length
      ≤ ([exSubmittedAll.take 5, exSubmittedAll.drop 5].foldl mergeSubmission
        exState).allFields.length ∧
    (sessionComplete ([exSubmittedAll.take 5, exSubmittedAll.drop 5].foldl mergeSubmission
        exState) = true ↔
      ([exSubmittedAll.take 5, exSubmittedAll.drop 5].foldl mergeSubmission
        exState).submittedValues.length
      = ([exSubmittedAll.take 5, exSubmittedAll.drop 5].foldl mergeSubmission
        exState).allFields.length) :=
  modal_invariant_amended (str "bug") (str "chan") (str "Bug Report") exFields
    [str "from-discord", str "bug"] (str "o") (str "r")
    [exSubmittedAll.take 5, exSubmittedAll.drop 5] (by decide)

/-- The inductive invariant of a concurrent `updateReleaseCache` run with
a successful nonempty fetch: either the cache is still cold (no fetch yet,
every caller still before its critical section) or it has been filled once
(exactly one fetch, every finished caller saw the fetched payload). -/
def runInv (now ttl : Nat) (p : List Str) (k : Nat) (s : ConcurrentRun) : Prop :=
  s.procs.length = k ∧
  ((s.cache = [] ∧ s.fetchCount = 0 ∧
      ∀ c ∈ s.procs, c = CallerPC.atRead ∨ c = CallerPC.atWrite) ∨
   (s.cache = p ∧ s.last = now ∧ s.fetchCount = 1 ∧
      ∀ c ∈ s.procs, c = CallerPC.atRead ∨ c = CallerPC.atWrite ∨
        c = CallerPC.done (Except.ok p)))

theorem schedStep_runInv (now ttl k : Nat) (p : List Str)
    (httl : 0 < ttl) (hp : p ≠ []) (s : ConcurrentRun) (idx : Nat)
    (h : runInv now ttl p k s) :
    runInv now ttl p k (schedStep now ttl (Except.ok p) s idx) := by
  obtain ⟨hlen, hcase⟩ := h
  unfold schedStep
  cases hget : s.procs.get? idx with
  | none => exact ⟨hlen, hcase⟩
  | some pc =>
    have hpcmem : pc ∈ s.procs := List.get?_mem hget
    cases pc with
    | atRead =>
      rcases hcase with ⟨hc, hf, hall⟩ | ⟨hc, hl, hf, hall⟩
      · have hfr : cacheFresh now ttl s.cache s.last = false := by
          simp [cacheFresh, hc]
        rw [hfr, if_neg (by simp)]
        refine ⟨by simp [hlen], Or.inl ⟨hc, hf, ?_⟩⟩
        intro c hcmem
        rcases List.mem_or_eq_of_mem_set hcmem with hcm | hce
        · exact hall c hcm
        · exact Or.inr hce
      · have hfr : cacheFresh now ttl s.cache s.last = true := by
          simp [cacheFresh, hc, hl, httl, List.length_pos.mpr hp]
        rw [hfr, if_pos rfl]
        refine ⟨by simp [hlen], Or.inr ⟨hc, hl, hf, ?_⟩⟩
        intro c hcmem
        rcases List.mem_or_eq_of_mem_set hcmem with hcm | hce
        · exact hall c hcm
        · rw [hce, hc]
          exact Or.inr (Or.inr rfl)
    | atWrite =>
      rcases hcase with ⟨hc, hf, hall⟩ | ⟨hc, hl, hf, hall⟩
      · have hfr : cacheFresh now ttl s.cache s.last = false := by
          simp [cacheFresh, hc]
        rw [hfr, if_neg (by simp)]
        refine ⟨by simp [hlen], Or.inr ⟨rfl, rfl, by simp [hf], ?_⟩⟩
        intro c hcmem
        rcases List.mem_or_eq_of_mem_set hcmem with hcm | hce
        · rcases hall c hcm with h1 | h1
          · exact Or.inl h1
          · exact Or.inr (Or.inl h1)
        · exact Or.inr (Or.inr hce)
      · have hfr : cacheFresh now ttl s.cache s.last = true := by
          simp [cacheFresh, hc, hl, httl, List.length_pos.mpr hp]
        rw [hfr, if_pos rfl]
        refine ⟨by simp [hlen], Or.inr ⟨hc, hl, hf, ?_⟩⟩
        intro c hcmem
        rcases List.mem_or_eq_of_mem_set hcmem with hcm | hce
        · exact hall c hcm
        · rw [hce, hc]
          exact Or.inr (Or.inr rfl)
    | done r => exact ⟨hlen, hcase⟩

theorem runSchedule_runInv (now ttl k : Nat) (p : List Str)
    (httl : 0 < ttl) (hp : p ≠ []) (sched : List Nat) :
    ∀ s : ConcurrentRun, runInv now ttl p k s →
    runInv now ttl p k (runSchedule now ttl (Except.ok p) sched s) := by
  induction sched with
  | nil => exact fun s h => h
  | cons i rest ih =>
    intro s h
    exact ih _ (schedStep_runInv now ttl k p httl hp s i h)

/-- C7 (amended): for every K >= 1, any interleaving of K concurrent
`updateReleaseCache` callers starting from a cold cache, with the upstream
fetch succeeding with a nonempty release list and a positive TTL, performs
exactly one upstream fetch once all callers have returned, and every
caller observes that payload.  Time is frozen for the run (the run is
short relative to the TTL). -/
theorem cold_cache_single_fetch_amended (k now ttl : Nat) (p : List Str)
    (hk : 1 ≤ k) (httl : 0 < ttl) (hp : p ≠ []) (sched : List Nat)
    (hdone : ∀ c ∈ (runSchedule now ttl (Except.ok p) sched (coldRun k)).procs,
      callerDone c = true) :
    (runSchedule now ttl (Except.ok p) sched (coldRun k)).fetchCount = 1 ∧
    ∀ c ∈ (runSchedule now ttl (Except.ok p) sched (coldRun k)).procs,
      c = CallerPC.done (Except.ok p) := by
  have hinit : runInv now ttl p k (coldRun k) := by
    refine ⟨by simp [coldRun], Or.inl ⟨rfl, rfl, ?_⟩⟩
    intro c hc
    exact Or.inl (List.mem_replicate.mp hc).2
  have hfin := runSchedule_runInv now ttl k p httl hp sched (coldRun k) hinit
  obtain ⟨hlen, hcase⟩ := hfin
  rcases hcase with ⟨hc, hf, hall⟩ | ⟨hc, hl, hf, hall⟩
  · exfalso
    have hne : (runSchedule now ttl (Except.ok p) sched (coldRun k)).procs ≠ [] := by
      intro h0
      rw [h0] at hlen
      simp at hlen
      omega
    obtain ⟨c, hcmem⟩ := List.exists_mem_of_ne_nil _ hne
    have hcd := hdone c hcmem
    rcases hall c hcmem with h1 | h1 <;> rw [h1] at hcd <;> simp [callerDone] at hcd
  · refine ⟨hf, ?_⟩
    intro c hcmem
    have hcd := hdone c hcmem
    rcases hall c hcmem with h1 | h1 | h1
    · rw [h1] at hcd
      simp [callerDone] at hcd
    · rw [h1] at hcd
      simp [callerDone] at hcd
    · exact h1

/-- Witness for C7 (amended): two callers, one interleaving in which the
second caller's read check runs after the first caller's fetch; one fetch
total and both callers see the payload. -/
theorem cold_cache_single_fetch_witness :
    (runSchedule 0 1 (Except.ok [str "v1"]) [0, 0, 1] (coldRun 2)).fetchCount = 1 ∧
    (runSchedule 0 1 (Except.ok [str "v1"]) [0, 0, 1] (coldRun 2)).procs
      = [CallerPC.done (Except.ok [str "v1"]), CallerPC.done (Except.ok [str "v1"])] :=
  ⟨(cold_cache_single_fetch_amended 2 0 1 [str "v1"] (by decide) (by decide)
      (by decide) [0, 0, 1] (by decide)).1, by decide⟩

/-- Counterexample for C7 as stated: a fetch that succeeds with the empty
release list never satisfies the `len(releaseCache) > 0` half of the
freshness check, so two callers racing on a cold cache both fetch — two
upstream calls, not one — even though both complete with the same
payload. -/
theorem cold_cache_single_fetch_counterexample :
    (runSchedule 0 1 (Except.ok []) [0, 0, 1, 1] (coldRun 2)).fetchCount = 2 ∧
    (runSchedule 0 1 (Except.ok []) [0, 0, 1, 1] (coldRun 2)).procs
      = [CallerPC.done (Except.ok []), CallerPC.done (Except.ok [])] := by
  decide
